import Mathlib

/-!
Verification of the incremental-export core of the BookStack exporter
script (exporter.py): the document-tree model with its recursive
staleness count, the staleness decider, the path computation, the
parent/child registration discipline, the paginated listing fetcher,
the rolling-window rate limiter, the export-pass driver, the catalog
builders and the header handling for external downloads.

Timestamps are modelled as integers (an arbitrary totally ordered time
scale stands in for datetime values); byte strings are lists of
naturals; dictionaries are association lists with Python dict update
semantics.
-/

set_option autoImplicit false

namespace BookStackExporter

/-- The characters replaced by an underscore in node names
(FORBIDDEN_CHARS in exporter.py, default value). -/
def FORBIDDEN_CHARS : List String := ["/", "#"]

/-- Name sanitization performed in Node.__init__: every occurrence of
each forbidden string is replaced by an underscore, in list order. -/
def sanitize (forbidden : List String) (name : String) : String :=
  forbidden.foldl (fun n c => n.replace c "_") name

/-- The document tree as seen by Node.changed_since: a node carries its
sanitized name, its id, its last edit timestamp and the ordered list of
its children (Node in exporter.py, viewed along child links). -/
inductive Node where
  | mk (name : String) (node_id : Int) (last_edit_timestamp : Int)
      (children : List Node)

/-- Accessor for the stored (sanitized) name of a node. -/
def Node.name : Node → String
  | .mk nm _ _ _ => nm

/-- Accessor for the node id. -/
def Node.node_id : Node → Int
  | .mk _ i _ _ => i

/-- Accessor for the last edit timestamp (Node.get_last_edit_timestamp). -/
def Node.get_last_edit_timestamp : Node → Int
  | .mk _ _ ts _ => ts

/-- Accessor for the ordered children list of a node. -/
def Node.children : Node → List Node
  | .mk _ _ _ cs => cs

mutual

/-- Node.changed_since from exporter.py: result starts at 0, gains 1 when
this node's own last edit timestamp is strictly later than the given
timestamp, and adds each child's recursive count. -/
def Node.changed_since : Node → Int → Nat
  | .mk _ _ ts cs, timestamp =>
    (if ts > timestamp then 1 else 0) + changedSinceList cs timestamp

/-- Accumulation of Node.changed_since over a children list, in order. -/
def changedSinceList : List Node → Int → Nat
  | [], _ => 0
  | c :: cs, timestamp =>
    Node.changed_since c timestamp + changedSinceList cs timestamp

end

mutual

/-- The list of all nodes of the subtree rooted at a node, the root
included (the set that the specification of changed_since counts over). -/
def Node.subtree : Node → List Node
  | .mk nm i ts cs => Node.mk nm i ts cs :: subtreeList cs

/-- Subtree node lists of a children list, concatenated in order. -/
def subtreeList : List Node → List Node
  | [] => []
  | c :: cs => Node.subtree c ++ subtreeList cs

end

theorem changedSinceList_eq_sum (l : List Node) (t : Int) :
    changedSinceList l t = (l.map (fun c => c.changed_since t)).sum := by
  induction l with
  | nil => simp [changedSinceList]
  | cons c cs ih => simp [changedSinceList, ih]

mutual

theorem changed_since_eq_count (n : Node) (t : Int) :
    n.changed_since t
      = (n.subtree.filter
          (fun m => decide (t < m.get_last_edit_timestamp))).length := by
  match n with
  | .mk nm i ts cs =>
    rw [Node.changed_since, Node.subtree, List.filter_cons,
      changedSinceList_eq_count cs t]
    simp only [Node.get_last_edit_timestamp, gt_iff_lt]
    by_cases h : t < ts <;> simp [h] <;> omega

theorem changedSinceList_eq_count (l : List Node) (t : Int) :
    changedSinceList l t
      = ((subtreeList l).filter
          (fun m => decide (t < m.get_last_edit_timestamp))).length := by
  match l with
  | [] => simp [changedSinceList, subtreeList]
  | c :: cs =>
    rw [changedSinceList, subtreeList, List.filter_append,
      List.length_append, changed_since_eq_count c t,
      changedSinceList_eq_count cs t]

end

mutual

theorem changed_since_mono (n : Node) (t t' : Int) (h : t' ≤ t) :
    n.changed_since t ≤ n.changed_since t' := by
  match n with
  | .mk nm i ts cs =>
    rw [Node.changed_since, Node.changed_since]
    have hl := changedSinceList_mono cs t t' h
    have : (if ts > t then 1 else 0) ≤ (if ts > t' then 1 else 0) := by
      by_cases ho : ts > t
      · have : ts > t' := lt_of_le_of_lt h ho
        simp [ho, this]
      · by_cases ho2 : ts > t' <;> simp [ho, ho2]
    omega

theorem changedSinceList_mono (l : List Node) (t t' : Int) (h : t' ≤ t) :
    changedSinceList l t ≤ changedSinceList l t' := by
  match l with
  | [] => exact Nat.le_refl _
  | c :: cs =>
    rw [changedSinceList, changedSinceList]
    exact Nat.add_le_add (changed_since_mono c t t' h)
      (changedSinceList_mono cs t t' h)

end

/-- C1: for every node and timestamp t, changed_since t equals 1 when the
node's own last edit timestamp is strictly greater than t (0 otherwise)
plus the sum of changed_since t over the children; it equals the number
of nodes of the subtree (root included) whose timestamp is strictly
greater than t — so a node whose timestamp equals t is not counted —
and it is monotonically non-decreasing as t decreases. -/
theorem claim1_changed_since_spec (n : Node) (t t' : Int) (h : t' ≤ t) :
    n.changed_since t
        = (if t < n.get_last_edit_timestamp then 1 else 0)
          + (n.children.map (fun c => c.changed_since t)).sum
    ∧ n.changed_since t
        = (n.subtree.filter
            (fun m => decide (t < m.get_last_edit_timestamp))).length
    ∧ n.changed_since t ≤ n.changed_since t' := by
  refine ⟨?_, changed_since_eq_count n t, changed_since_mono n t t' h⟩
  match n with
  | .mk nm i ts cs =>
    rw [Node.changed_since, changedSinceList_eq_sum]
    simp [Node.get_last_edit_timestamp, Node.children, gt_iff_lt]

/-- Concrete instance of claim1_changed_since_spec: a two-node tree whose
root was edited at time 5 and whose only child at time 0, queried at
t = 0 against t' = -1. -/
theorem claim1_changed_since_spec_witness :
    (Node.mk "a" 1 5 [Node.mk "b" 2 0 []]).changed_since 0
        = (if (0 : Int) <
              (Node.mk "a" 1 5 [Node.mk "b" 2 0 []]).get_last_edit_timestamp
           then 1 else 0)
          + ((Node.mk "a" 1 5 [Node.mk "b" 2 0 []]).children.map
              (fun c => c.changed_since 0)).sum
    ∧ (Node.mk "a" 1 5 [Node.mk "b" 2 0 []]).changed_since 0
        = ((Node.mk "a" 1 5 [Node.mk "b" 2 0 []]).subtree.filter
            (fun m => decide ((0 : Int) < m.get_last_edit_timestamp))).length
    ∧ (Node.mk "a" 1 5 [Node.mk "b" 2 0 []]).changed_since 0
        ≤ (Node.mk "a" 1 5 [Node.mk "b" 2 0 []]).changed_since (-1) :=
  claim1_changed_since_spec (Node.mk "a" 1 5 [Node.mk "b" 2 0 []]) 0 (-1)
    (by norm_num)

/-- The staleness decider check_if_update_needed from exporter.py, over an
abstract file state: skip_timestamps is the force-update flag
(SKIP_TIMESTAMPS), file_exists tells whether a file is present at the
target path, local_last_edit is that file's modification instant. -/
def check_if_update_needed (skip_timestamps : Bool) (file_exists : Bool)
    (local_last_edit : Int) (document : Node) : Bool :=
  if skip_timestamps then true
  else if !file_exists then true
  else decide (0 < document.changed_since local_last_edit)

/-- C2: check_if_update_needed returns true whenever the force flag is
set (even when the file does not exist); otherwise it returns true when
no file exists; otherwise it returns true iff changed_since applied to
the file's last-modified instant is greater than zero. -/
theorem claim2_check_if_update_needed (skip fe : Bool) (t : Int) (d : Node) :
    (skip = true → check_if_update_needed skip fe t d = true)
    ∧ (fe = false → check_if_update_needed skip fe t d = true)
    ∧ (skip = false → fe = true →
        (check_if_update_needed skip fe t d = true
          ↔ 0 < d.changed_since t)) := by
  refine ⟨?_, ?_, ?_⟩
  · intro hs; simp [check_if_update_needed, hs]
  · intro hf
    cases skip <;> simp [check_if_update_needed, hf]
  · intro hs hf
    simp [check_if_update_needed, hs, hf]

/-- Concrete instance of claim2_check_if_update_needed: force flag set,
file absent, a one-node document edited at time 3, checked at time 0. -/
theorem claim2_check_if_update_needed_witness :
    (true = true →
      check_if_update_needed true false 0 (Node.mk "a" 1 3 []) = true)
    ∧ (false = false →
      check_if_update_needed true false 0 (Node.mk "a" 1 3 []) = true)
    ∧ (true = false → false = true →
        (check_if_update_needed true false 0 (Node.mk "a" 1 3 []) = true
          ↔ 0 < (Node.mk "a" 1 3 []).changed_since 0)) :=
  claim2_check_if_update_needed true false 0 (Node.mk "a" 1 3 [])

/-! ## Path computation (Node.get_path) -/

/-- The path separator (os.path.sep on the platform the script runs on). -/
def pathSep : String := "/"

/-- A node viewed along its parent chain, as walked by Node.get_path:
either a root (parent is None) or a child holding its parent. Names are
stored sanitized, as Node.__init__ stores them. -/
inductive PNode where
  | root (name : String) (node_id : Int) (last_edit_timestamp : Int)
  | child (name : String) (node_id : Int) (last_edit_timestamp : Int)
      (parent : PNode)

/-- Accessor for the stored (sanitized) name of a parent-chain node. -/
def PNode.name : PNode → String
  | .root nm _ _ => nm
  | .child nm _ _ _ => nm

/-- Node.__init__ along the parent chain: the supplied name is sanitized
against FORBIDDEN_CHARS and the parent (when any) is recorded. -/
def PNode.init (name : String) (parent : Option PNode)
    (node_id last_edit_timestamp : Int) : PNode :=
  match parent with
  | none => .root (sanitize FORBIDDEN_CHARS name) node_id last_edit_timestamp
  | some p =>
    .child (sanitize FORBIDDEN_CHARS name) node_id last_edit_timestamp p

/-- Node.get_path from exporter.py: a parentless node yields the export
root marker, otherwise the parent's path extended by the separator and
the parent's name. -/
def PNode.get_path : PNode → String
  | .root _ _ _ => "."
  | .child _ _ _ p => p.get_path ++ pathSep ++ p.name

/-- The ancestor list of a node in root-to-parent order, excluding the
node itself. -/
def PNode.ancestors : PNode → List PNode
  | .root _ _ _ => []
  | .child _ _ _ p => p.ancestors ++ [p]

/-- Modelled from the spec sentence for the path claim: the export root
marker followed by each ancestor's stored name as a directory segment,
in root-to-parent order, the node's own name excluded. -/
def path_spec (n : PNode) : String :=
  n.ancestors.foldl (fun acc a => acc ++ pathSep ++ a.name) "."

/-- C4: every node's get_path equals the concatenation of each
ancestor's sanitized name as a directory segment in root-to-parent
order, excluding the node's own name; a parentless node's path is the
export root marker, and a constructed node's stored name is the
sanitized form of the supplied name. -/
theorem claim4_get_path (n : PNode) (rawName : String) (p : PNode)
    (i ts : Int) :
    n.get_path = path_spec n
    ∧ (PNode.init rawName none i ts).get_path = "."
    ∧ (PNode.init rawName (some p) i ts).name
        = sanitize FORBIDDEN_CHARS rawName := by
  refine ⟨?_, rfl, rfl⟩
  induction n with
  | root nm i0 ts0 => simp [PNode.get_path, path_spec, PNode.ancestors]
  | child nm i0 ts0 q ih =>
    rw [PNode.get_path, ih]
    simp [path_spec, PNode.ancestors, List.foldl_concat]

/-! ## Rate limiter (ApiRateLimiter.limit_rate_request) -/

/-- ApiRateLimiter.limit_rate_request from exporter.py, as a function of
the stored request-time window and the current time: the current time is
appended, entries older than 60 seconds are pruned, and when the window
count exceeds the configured ceiling, the returned wait time is the
oldest remembered request time plus 60 minus the current time (the
sleep duration); the wait is 0 otherwise. -/
def limit_rate_request (rate_limit : Nat) (requests_times : List ℚ)
    (current_time : ℚ) : List ℚ × ℚ :=
  let appended := requests_times ++ [current_time]
  let filtered := appended.filter (fun x => decide (current_time - x ≤ 60))
  if filtered.length > rate_limit then
    (filtered, filtered.headD 0 + 60 - current_time)
  else
    (filtered, 0)

/-- Successive calls of limit_rate_request at the given instants, from a
starting window; returns the final window and the wait time of each
call, in order. -/
def run_calls (rate_limit : Nat) : List ℚ → List ℚ → List ℚ × List ℚ
  | times, [] => (times, [])
  | times, c :: cs =>
    let r := limit_rate_request rate_limit times c
    let rest := run_calls rate_limit r.1 cs
    (rest.1, r.2 :: rest.2)

/-- The wait times the limiter hands out when no entry is ever pruned:
the call is blocked exactly when the grown window exceeds the ceiling,
for the duration oldest-plus-60-minus-current. -/
def expected_waits (rate_limit : Nat) : List ℚ → List ℚ → List ℚ
  | _, [] => []
  | times, c :: cs =>
    let t := times ++ [c]
    (if t.length > rate_limit then t.headD 0 + 60 - c else 0)
      :: expected_waits rate_limit t cs

theorem run_calls_eq_expected (limit : Nat) (cs : List ℚ) :
    ∀ times : List ℚ, (∀ x ∈ times, ∀ c ∈ cs, c - x ≤ 60) →
      List.Pairwise (fun a b => b - a ≤ 60) cs →
      run_calls limit times cs = (times ++ cs, expected_waits limit times cs) := by
  induction cs with
  | nil => intro times _ _; simp [run_calls, expected_waits]
  | cons c cs ih =>
    intro times hw hc
    have hkeep : (times ++ [c]).filter (fun x => decide (c - x ≤ 60))
        = times ++ [c] := by
      rw [List.filter_eq_self]
      intro x hx
      rcases List.mem_append.mp hx with hx | hx
      · exact decide_eq_true (hw x hx c (List.mem_cons_self c cs))
      · rcases List.mem_singleton.mp hx with rfl
        exact decide_eq_true (by norm_num)
    have hstate : (limit_rate_request limit times c).1 = times ++ [c] := by
      rw [limit_rate_request]
      simp only [hkeep]
      split <;> rfl
    have hwait : (limit_rate_request limit times c).2
        = (if (times ++ [c]).length > limit
           then (times ++ [c]).headD 0 + 60 - c else 0) := by
      rw [limit_rate_request]
      simp only [hkeep]
      split <;> simp_all
    have hrec := ih (times ++ [c])
      (by
        intro x hx d hd
        rcases List.mem_append.mp hx with hx | hx
        · exact hw x hx d (List.mem_cons_of_mem c hd)
        · rcases List.mem_singleton.mp hx with rfl
          exact (List.pairwise_cons.mp hc).1 d hd)
      (List.pairwise_cons.mp hc).2
    rw [run_calls, hstate, hrec, expected_waits, hwait]
    simp

theorem expected_waits_all_zero (limit : Nat) (cs : List ℚ) :
    ∀ times : List ℚ, times.length + cs.length ≤ limit →
      expected_waits limit times cs = List.replicate cs.length 0 := by
  induction cs with
  | nil => intro times _; simp [expected_waits]
  | cons c cs ih =>
    intro times hlen
    rw [expected_waits]
    simp only [List.length_cons] at hlen
    have hnot : ¬ (times ++ [c]).length > limit := by
      simp only [List.length_append, List.length_singleton]
      omega
    rw [if_neg hnot, ih (times ++ [c]) (by simp; omega)]
    simp [List.replicate_succ]

theorem getLastD_default_irrel (l : List ℚ) (d d' : ℚ) (h : l ≠ []) :
    l.getLastD d = l.getLastD d' := by
  cases l with
  | nil => exact absurd rfl h
  | cons a l2 => simp only [List.getLastD_cons]

theorem expected_waits_last (limit : Nat) (cs : List ℚ) :
    ∀ times : List ℚ, cs ≠ [] →
      times.length + cs.length = limit + 1 →
      expected_waits limit times cs
        = List.replicate (cs.length - 1) 0
          ++ [(times ++ cs).headD 0 + 60 - cs.getLastD 0] := by
  induction cs with
  | nil => intro times hne _; exact absurd rfl hne
  | cons c cs ih =>
    intro times _ hlen
    rw [expected_waits]
    cases cs with
    | nil =>
      simp only [List.length_cons, List.length_nil] at hlen
      have hgt : (times ++ [c]).length > limit := by
        simp only [List.length_append, List.length_cons, List.length_nil]
        omega
      rw [if_pos hgt]
      simp [expected_waits]
    | cons c2 cs2 =>
      simp only [List.length_cons] at hlen
      have hnot : ¬ (times ++ [c]).length > limit := by
        simp only [List.length_append, List.length_cons, List.length_nil]
        omega
      rw [if_neg hnot,
        ih (times ++ [c]) (by simp) (by simp only [List.length_append,
          List.length_cons, List.length_nil]; omega)]
      have hhd : ((times ++ [c]) ++ c2 :: cs2).headD (0 : ℚ)
          = (times ++ c :: c2 :: cs2).headD 0 := by
        rw [List.append_assoc]
        rfl
      have hlast : (c :: c2 :: cs2).getLastD (0 : ℚ)
          = (c2 :: cs2).getLastD 0 := by
        rw [List.getLastD_cons]
        exact getLastD_default_irrel (c2 :: cs2) c 0 (by simp)
      rw [hhd, hlast]
      simp [List.replicate_succ]

/-- C6: on each call the limiter records the current time, prunes
entries older than 60 seconds, and hands out a nonzero wait only when
the pruned window count exceeds the configured ceiling; for calls
issued within one second of each other, issuing exactly the ceiling
many calls never blocks, and issuing one more blocks the last call for
the duration of the oldest recorded call time plus 60 minus the current
time. -/
theorem claim6_rate_limiter (limit : Nat) (calls : List ℚ)
    (hsorted : List.Pairwise (fun a b => a ≤ b ∧ b - a ≤ 1) calls) :
    (∀ now : ℚ, ∀ ts : List ℚ,
        ((ts ++ [now]).filter (fun x => decide (now - x ≤ 60))).length ≤ limit →
        (limit_rate_request limit ts now).2 = 0)
    ∧ (calls.length ≤ limit →
        (run_calls limit [] calls).2 = List.replicate calls.length 0)
    ∧ (calls ≠ [] → calls.length = limit + 1 →
        (run_calls limit [] calls).2
          = List.replicate limit 0
            ++ [calls.headD 0 + 60 - calls.getLastD 0]) := by
  have hwin : List.Pairwise (fun a b : ℚ => b - a ≤ 60) calls :=
    hsorted.imp (fun h => by linarith [h.2])
  have hrun := run_calls_eq_expected limit calls []
    (by intro x hx; exact absurd hx (List.not_mem_nil x)) hwin
  refine ⟨?_, ?_, ?_⟩
  · intro now ts hlen
    simp only [limit_rate_request]
    rw [if_neg (by omega)]
  · intro hle
    rw [hrun]
    exact expected_waits_all_zero limit calls [] (by simpa using hle)
  · intro hne hlen
    rw [hrun]
    rw [expected_waits_last limit calls [] hne (by simpa using hlen)]
    simp [hlen]

/-- Concrete instance of claim6_rate_limiter: ceiling 2 and three calls
at times 0, 1, 1 (all within one second): the first two calls wait 0
and the third waits 0 + 60 - 1 = 59 seconds. -/
theorem claim6_rate_limiter_witness :
    (∀ now : ℚ, ∀ ts : List ℚ,
        ((ts ++ [now]).filter (fun x => decide (now - x ≤ 60))).length ≤ 2 →
        (limit_rate_request 2 ts now).2 = 0)
    ∧ (([(0 : ℚ), 1, 1] : List ℚ).length ≤ 2 →
        (run_calls 2 [] [(0 : ℚ), 1, 1]).2
          = List.replicate ([(0 : ℚ), 1, 1] : List ℚ).length 0)
    ∧ (([(0 : ℚ), 1, 1] : List ℚ) ≠ [] →
        ([(0 : ℚ), 1, 1] : List ℚ).length = 2 + 1 →
        (run_calls 2 [] [(0 : ℚ), 1, 1]).2
          = List.replicate 2 0
            ++ [([(0 : ℚ), 1, 1] : List ℚ).headD 0 + 60
                - ([(0 : ℚ), 1, 1] : List ℚ).getLastD 0]) :=
  claim6_rate_limiter 2 [0, 1, 1]
    (by norm_num [List.pairwise_cons])

/-! ## Paginated listing fetcher (api_get_listing) -/

/-- The loop of api_get_listing from exporter.py, over an abstract API:
api c o is the (total, data) part of the response to a request with
count c and offset o. The while loop runs as long as the declared total
exceeds the accumulated count; each iteration requests count 50 at
offset equal to the accumulated length, re-reads total from the
response and appends the response data. Fuel bounds the number of
iterations (the source loops unconditionally); none is returned when
fuel runs out with the loop condition still holding. -/
def api_get_listing_go {α : Type} (api : Nat → Nat → Nat × List α) :
    Nat → Nat → List α → Option (List α)
  | 0, total, result =>
    if total > result.length then none else some result
  | fuel + 1, total, result =>
    if total > result.length then
      api_get_listing_go api fuel (api 50 result.length).1
        (result ++ (api 50 result.length).2)
    else some result

/-- api_get_listing from exporter.py: count is fixed at 50 and total
starts out equal to count, so the loop body always runs at least once. -/
def api_get_listing {α : Type} (api : Nat → Nat → Nat × List α)
    (fuel : Nat) : Option (List α) :=
  api_get_listing_go api fuel 50 []

/-- Modelled from the spec sentence for the pagination claim: repeatedly
request page size 50 at offset equal to the number of items accumulated
so far, concatenating each response's data, and stop exactly when the
accumulated count reaches the total declared by the most recent
response (the total is re-read from every response, never cached). -/
def listing_spec_go {α : Type} (api : Nat → Nat → Nat × List α) :
    Nat → List α → Option (List α)
  | 0, _ => none
  | fuel + 1, acc =>
    let acc2 := acc ++ (api 50 acc.length).2
    if (api 50 acc.length).1 ≤ acc2.length then some acc2
    else listing_spec_go api fuel acc2

/-- The spec-modelled fetcher starts with nothing accumulated and always
issues at least one request. -/
def listing_spec {α : Type} (api : Nat → Nat → Nat × List α)
    (fuel : Nat) : Option (List α) :=
  listing_spec_go api fuel []

theorem api_get_listing_go_stop {α : Type} (api : Nat → Nat → Nat × List α)
    (fuel total : Nat) (result : List α) (h : ¬ total > result.length) :
    api_get_listing_go api fuel total result = some result := by
  cases fuel with
  | zero => rw [api_get_listing_go, if_neg h]
  | succ f => rw [api_get_listing_go, if_neg h]

theorem api_get_listing_go_eq_spec {α : Type}
    (api : Nat → Nat → Nat × List α) (fuel : Nat) :
    ∀ (total : Nat) (result : List α), total > result.length →
      api_get_listing_go api fuel total result
        = listing_spec_go api fuel result := by
  induction fuel with
  | zero =>
    intro total result h
    rw [api_get_listing_go, if_pos h, listing_spec_go]
  | succ f ih =>
    intro total result h
    rw [api_get_listing_go, if_pos h, listing_spec_go]
    by_cases hstop :
        (api 50 result.length).1 ≤ (result ++ (api 50 result.length).2).length
    · rw [api_get_listing_go_stop api f _ _ (by omega), if_pos hstop]
    · rw [if_neg hstop]
      exact ih (api 50 result.length).1 _ (by omega)

/-- C5: the listing fetcher equals the spec-modelled fetcher that
requests pages of fixed size 50 at offset equal to the number of items
accumulated so far, concatenates each response's data, and stops
exactly when the accumulated count reaches the declared total re-read
from the most recent response. -/
theorem claim5_api_get_listing {α : Type} (api : Nat → Nat → Nat × List α)
    (fuel : Nat) :
    api_get_listing api fuel = listing_spec api fuel := by
  rw [api_get_listing, listing_spec]
  exact api_get_listing_go_eq_spec api fuel 50 [] (by simp)

/-! ## Parent/child registration (Node.__init__, add_child, set_parent)

The mutable object graph of exporter.py, modelled as a heap: a list of
Node objects whose address is their index, with parent back-references
and children lists holding addresses. -/

/-- One Node object on the heap: the attributes set by Node.__init__,
with parent and children held as heap addresses. -/
structure Obj where
  name : String
  parent : Option Nat
  children : List Nat
  node_id : Int
  last_edit_timestamp : Int

/-- The heap of Node objects; an object's address is its index. -/
abbrev Heap := List Obj

/-- In-place update of the object stored at an address (identity off the
end of the heap). -/
def heap_update (h : Heap) (i : Nat) (f : Obj → Obj) : Heap :=
  match h[i]? with
  | none => h
  | some o => h.set i (f o)

/-- Node.add_child from exporter.py: appends the child's address to this
object's children list, unconditionally (no duplicate check). -/
def add_child (h : Heap) (self child : Nat) : Heap :=
  heap_update h self (fun o => { o with children := o.children ++ [child] })

/-- Node.set_parent from exporter.py: overwrite the parent reference,
then register with the new parent via add_child. -/
def set_parent (h : Heap) (self parent : Nat) : Heap :=
  add_child (heap_update h self (fun o => { o with parent := some parent }))
    parent self

/-- The freshly initialised object of Node.__init__: sanitized name,
empty children list, the supplied parent reference. -/
def newObj (name : String) (parent : Option Nat)
    (node_id last_edit_timestamp : Int) : Obj :=
  { name := sanitize FORBIDDEN_CHARS name, parent := parent, children := [],
    node_id := node_id, last_edit_timestamp := last_edit_timestamp }

/-- Node.__init__ from exporter.py: allocate the new object at the end
of the heap and, when a parent was supplied, register the new address
with that parent via add_child. Returns the heap and the new address. -/
def node_init (h : Heap) (name : String) (parent : Option Nat)
    (node_id last_edit_timestamp : Int) : Heap × Nat :=
  let h1 := h ++ [newObj name parent node_id last_edit_timestamp]
  match parent with
  | none => (h1, h.length)
  | some p => (add_child h1 p h.length, h.length)

/-- Heaps built the way the script builds them: every Node is created by
Node.__init__ with a parent that (when present) already exists on the
heap; set_parent and add_child are never called outside __init__. -/
inductive Constructed : Heap → Prop where
  | nil : Constructed []
  | init (h : Heap) (name : String) (parent : Option Nat)
      (node_id last_edit_timestamp : Int)
      (hh : Constructed h) (hp : ∀ p, parent = some p → p < h.length) :
      Constructed (node_init h name parent node_id last_edit_timestamp).1

/-- How many registrations of address c the children list of the object
at address p is expected to hold: one when the object at c has its
parent reference set to p, none otherwise. -/
def childSlot (h : Heap) (c p : Nat) : Nat :=
  match h[c]? with
  | some oc => if oc.parent = some p then 1 else 0
  | none => 0

/-- Every children list holds each address exactly as often as the
parent back-reference demands: once for its registered children, never
otherwise. -/
abbrev RegisteredOnce (h : Heap) : Prop :=
  ∀ (p : Nat) (op : Obj), h[p]? = some op →
    ∀ c : Nat, op.children.count c = childSlot h c p

/-- Every parent reference points at an address on the heap. -/
abbrev ParentsValid (h : Heap) : Prop :=
  ∀ (c : Nat) (oc : Obj) (p : Nat), h[c]? = some oc →
    oc.parent = some p → p < h.length

theorem heap_update_length (h : Heap) (i : Nat) (f : Obj → Obj) :
    (heap_update h i f).length = h.length := by
  unfold heap_update
  split
  · rfl
  · simp

theorem heap_update_of_none (h : Heap) (i : Nat) (f : Obj → Obj)
    (hi : h[i]? = none) : heap_update h i f = h := by
  unfold heap_update
  rw [hi]

theorem heap_update_get_ne (h : Heap) (i : Nat) (f : Obj → Obj) (j : Nat)
    (hne : j ≠ i) : (heap_update h i f)[j]? = h[j]? := by
  unfold heap_update
  split
  · rfl
  · exact List.getElem?_set_ne (by omega)

theorem heap_update_get_self (h : Heap) (i : Nat) (f : Obj → Obj) (o : Obj)
    (hi : h[i]? = some o) : (heap_update h i f)[i]? = some (f o) := by
  unfold heap_update
  rw [hi]
  rcases List.getElem?_eq_some.mp hi with ⟨hl, _⟩
  exact List.getElem?_set_eq_of_lt (f o) hl

theorem childSlot_of_get {h : Heap} {c : Nat} {oc : Obj}
    (hc : h[c]? = some oc) (p : Nat) :
    childSlot h c p = if oc.parent = some p then 1 else 0 := by
  unfold childSlot
  rw [hc]

theorem childSlot_of_none {h : Heap} {c : Nat} (hc : h[c]? = none)
    (p : Nat) : childSlot h c p = 0 := by
  unfold childSlot
  rw [hc]

theorem childSlot_append_lt (h : Heap) (obj : Obj) (c p : Nat)
    (hc : c < h.length) :
    childSlot (h ++ [obj]) c p = childSlot h c p := by
  unfold childSlot
  rw [List.getElem?_append_left hc]

theorem childSlot_append_self (h : Heap) (obj : Obj) (p : Nat) :
    childSlot (h ++ [obj]) h.length p
      = if obj.parent = some p then 1 else 0 :=
  childSlot_of_get (List.getElem?_concat_length h obj) p

theorem childSlot_append_gt (h : Heap) (obj : Obj) (c p : Nat)
    (hc : h.length < c) :
    childSlot (h ++ [obj]) c p = 0 :=
  childSlot_of_none (List.getElem?_eq_none (by simp; omega)) p

theorem childSlot_add_child (h : Heap) (i child c p : Nat) :
    childSlot (add_child h i child) c p = childSlot h c p := by
  unfold add_child
  by_cases hc : c = i
  · subst hc
    cases hi : h[c]? with
    | none => rw [heap_update_of_none _ _ _ hi]
    | some o =>
      rw [childSlot_of_get (heap_update_get_self h c _ o hi),
        childSlot_of_get hi]
  · unfold childSlot
    rw [heap_update_get_ne h i _ c hc]

theorem add_child_length (h : Heap) (i child : Nat) :
    (add_child h i child).length = h.length := by
  unfold add_child
  exact heap_update_length h i _

theorem childSlot_valid_ne_len (h : Heap) (c : Nat) (iv : ParentsValid h) :
    childSlot h c h.length = 0 := by
  cases hc : h[c]? with
  | none => exact childSlot_of_none hc _
  | some oc =>
    rw [childSlot_of_get hc]
    have hne : oc.parent ≠ some h.length := by
      intro hq
      exact absurd (iv c oc h.length hc hq) (lt_irrefl _)
    rw [if_neg hne]

theorem invariant_step (h : Heap) (name : String) (parent : Option Nat)
    (node_id ts : Int) (hp : ∀ p, parent = some p → p < h.length)
    (ir : RegisteredOnce h) (iv : ParentsValid h) :
    RegisteredOnce (node_init h name parent node_id ts).1
      ∧ ParentsValid (node_init h name parent node_id ts).1 := by
  have hget_lt : ∀ c, c < h.length →
      (h ++ [newObj name parent node_id ts])[c]? = h[c]? := by
    intro c hc
    exact List.getElem?_append_left hc
  have hget_addr : (h ++ [newObj name parent node_id ts])[h.length]?
      = some (newObj name parent node_id ts) :=
    List.getElem?_concat_length h _
  have hget_gt : ∀ c, h.length < c →
      (h ++ [newObj name parent node_id ts])[c]? = none := by
    intro c hc
    exact List.getElem?_eq_none (by simp; omega)
  have hobjp : (newObj name parent node_id ts).parent = parent := rfl
  cases parent with
  | none =>
    simp only [node_init]
    refine ⟨?_, ?_⟩
    · intro p op hpo c
      rcases Nat.lt_trichotomy p h.length with hlt | heq | hgt
      · rw [hget_lt p hlt] at hpo
        rw [ir p op hpo c]
        rcases Nat.lt_trichotomy c h.length with hc | hc | hc
        · rw [childSlot_append_lt h _ c p hc]
        · subst hc
          rw [childSlot_append_self, hobjp,
            childSlot_of_none (List.getElem?_eq_none (le_refl _))]
          simp
        · rw [childSlot_append_gt h _ c p hc,
            childSlot_of_none (List.getElem?_eq_none (by omega))]
      · subst heq
        rw [hget_addr, Option.some.injEq] at hpo
        subst hpo
        have hcount : (newObj name none node_id ts).children.count c = 0 := by
          simp [newObj]
        rw [hcount]
        rcases Nat.lt_trichotomy c h.length with hc | hc | hc
        · rw [childSlot_append_lt h _ c _ hc, childSlot_valid_ne_len h c iv]
        · subst hc
          rw [childSlot_append_self, hobjp]
          simp
        · rw [childSlot_append_gt h _ c _ hc]
      · rw [List.getElem?_eq_none (by simp; omega)] at hpo
        exact absurd hpo (by simp)
    · intro c oc p hcg hpar
      simp only [List.length_append, List.length_cons, List.length_nil]
      rcases Nat.lt_trichotomy c h.length with hc | hc | hc
      · rw [hget_lt c hc] at hcg
        have := iv c oc p hcg hpar
        omega
      · subst hc
        rw [hget_addr, Option.some.injEq] at hcg
        subst hcg
        rw [hobjp] at hpar
        exact absurd hpar (by simp)
      · rw [hget_gt c hc] at hcg
        exact absurd hcg (by simp)
  | some pp =>
    have hpp : pp < h.length := hp pp rfl
    obtain ⟨opp, hopp⟩ : ∃ o, h[pp]? = some o := by
      rw [List.getElem?_eq_getElem hpp]
      exact ⟨_, rfl⟩
    simp only [node_init]
    have h1pp : (h ++ [newObj name (some pp) node_id ts])[pp]? = some opp := by
      rw [hget_lt pp hpp]
      exact hopp
    have h2pp : (add_child (h ++ [newObj name (some pp) node_id ts]) pp
        h.length)[pp]?
        = some { opp with children := opp.children ++ [h.length] } := by
      unfold add_child
      exact heap_update_get_self _ pp _ opp h1pp
    have h2ne : ∀ x, x ≠ pp →
        (add_child (h ++ [newObj name (some pp) node_id ts]) pp
          h.length)[x]?
        = (h ++ [newObj name (some pp) node_id ts])[x]? := by
      intro x hx
      unfold add_child
      exact heap_update_get_ne _ pp _ x hx
    refine ⟨?_, ?_⟩
    · intro p op hpo c
      rw [childSlot_add_child]
      by_cases hppq : p = pp
      · rw [hppq] at hpo
        rw [h2pp, Option.some.injEq] at hpo
        subst hpo
        rw [hppq]
        have hcount : ({ opp with
            children := opp.children ++ [h.length] } : Obj).children.count c
            = opp.children.count c + if h.length = c then 1 else 0 := by
          simp [List.count_append, List.count_singleton']
        rw [hcount, ir pp opp hopp c]
        rcases Nat.lt_trichotomy c h.length with hc | hc | hc
        · rw [childSlot_append_lt h _ c _ hc, if_neg (by omega)]
          omega
        · subst hc
          rw [childSlot_append_self, hobjp, if_pos rfl, if_pos rfl,
            childSlot_of_none (List.getElem?_eq_none (le_refl _))]
        · rw [childSlot_append_gt h _ c _ hc, if_neg (by omega),
            childSlot_of_none (List.getElem?_eq_none (by omega))]
      · rw [h2ne p hppq] at hpo
        rcases Nat.lt_trichotomy p h.length with hlt | heq | hgt
        · rw [hget_lt p hlt] at hpo
          rw [ir p op hpo c]
          rcases Nat.lt_trichotomy c h.length with hc | hc | hc
          · rw [childSlot_append_lt h _ c p hc]
          · subst hc
            rw [childSlot_append_self, hobjp,
              childSlot_of_none (List.getElem?_eq_none (le_refl _))]
            simp only [Option.some.injEq]
            rw [if_neg (by omega)]
          · rw [childSlot_append_gt h _ c p hc,
              childSlot_of_none (List.getElem?_eq_none (by omega))]
        · subst heq
          rw [hget_addr, Option.some.injEq] at hpo
          subst hpo
          have hcount : (newObj name (some pp) node_id ts).children.count c
              = 0 := by
            simp [newObj]
          rw [hcount]
          rcases Nat.lt_trichotomy c h.length with hc | hc | hc
          · rw [childSlot_append_lt h _ c _ hc,
              childSlot_valid_ne_len h c iv]
          · subst hc
            rw [childSlot_append_self, hobjp]
            simp only [Option.some.injEq]
            rw [if_neg (by omega)]
          · rw [childSlot_append_gt h _ c _ hc]
        · rw [List.getElem?_eq_none (by simp; omega)] at hpo
          exact absurd hpo (by simp)
    · intro c oc p hcg hpar
      rw [add_child_length]
      simp only [List.length_append, List.length_cons, List.length_nil]
      by_cases hcq : c = pp
      · rw [hcq] at hcg
        rw [h2pp, Option.some.injEq] at hcg
        subst hcg
        have hpar2 : opp.parent = some p := hpar
        have := iv pp opp p hopp hpar2
        omega
      · rw [h2ne c hcq] at hcg
        rcases Nat.lt_trichotomy c h.length with hc | hc | hc
        · rw [hget_lt c hc] at hcg
          have := iv c oc p hcg hpar
          omega
        · subst hc
          rw [hget_addr, Option.some.injEq] at hcg
          subst hcg
          rw [hobjp, Option.some.injEq] at hpar
          omega
        · rw [hget_gt c hc] at hcg
          exact absurd hcg (by simp)

theorem constructed_invariant (h : Heap) (hc : Constructed h) :
    RegisteredOnce h ∧ ParentsValid h := by
  induction hc with
  | nil =>
    constructor
    · intro p op hpo
      exact absurd hpo (by simp)
    · intro c oc p hcg
      exact absurd hcg (by simp)
  | init h name parent node_id ts hh hp ih =>
    exact invariant_step h name parent node_id ts hp ih.1 ih.2

/-- C3 counterexample: add_child appends unconditionally, so registering
an already-registered child a second time with the same parent (here
via set_parent, the re-parenting method) duplicates it in the parent's
children list: after constructing node 1 with parent 0 it is registered
once; after the repeated registration it occurs twice, its parent
reference still being 0. -/
theorem claim3_counterexample_duplicate :
    (((node_init (node_init [] "a" none 1 0).1 "b" (some 0) 2 0).1)[0]?).map
        (fun o => o.children.count 1) = some 1
    ∧ ((set_parent (node_init (node_init [] "a" none 1 0).1 "b"
          (some 0) 2 0).1 1 0)[0]?).map
        (fun o => o.children.count 1) = some 2
    ∧ ((set_parent (node_init (node_init [] "a" none 1 0).1 "b"
          (some 0) 2 0).1 1 0)[1]?).map Obj.parent = some (some 0) :=
  ⟨rfl, rfl, rfl⟩

/-- C3 (amended): in every heap built by Node.__init__ alone — the only
registration pathway the script itself exercises — every node whose
parent reference is P occurs exactly once in P's children list, and
constructing a node with a parent automatically registers its address
exactly once with that parent, the parent back-reference being set to
it; a repeated registration of a registered child would duplicate it,
since add_child appends unconditionally. -/
theorem claim3_registration (h : Heap) (hc : Constructed h) :
    (∀ (c : Nat) (oc : Obj) (p : Nat), h[c]? = some oc →
        oc.parent = some p →
        ∃ op : Obj, h[p]? = some op ∧ op.children.count c = 1)
    ∧ (∀ (name : String) (p : Nat) (node_id ts : Int), p < h.length →
        (((node_init h name (some p) node_id ts).1)[h.length]?).map
            Obj.parent = some (some p)
        ∧ ∃ op : Obj, ((node_init h name (some p) node_id ts).1)[p]?
            = some op ∧ op.children.count h.length = 1) := by
  obtain ⟨ir, iv⟩ := constructed_invariant h hc
  constructor
  · intro c oc p hcg hpar
    have hplt : p < h.length := iv c oc p hcg hpar
    obtain ⟨op, hop⟩ : ∃ o, h[p]? = some o := by
      rw [List.getElem?_eq_getElem hplt]
      exact ⟨_, rfl⟩
    refine ⟨op, hop, ?_⟩
    rw [ir p op hop c, childSlot_of_get hcg, if_pos hpar]
  · intro name p node_id ts hplt
    have hc2 : Constructed (node_init h name (some p) node_id ts).1 :=
      Constructed.init h name (some p) node_id ts hc
        (fun q hq => by rw [Option.some.injEq] at hq; omega)
    obtain ⟨ir2, iv2⟩ := constructed_invariant _ hc2
    have haddr : ((node_init h name (some p) node_id ts).1)[h.length]?
        = some (newObj name (some p) node_id ts) := by
      simp only [node_init]
      unfold add_child
      rw [heap_update_get_ne _ p _ h.length (by omega)]
      exact List.getElem?_concat_length h _
    constructor
    · rw [haddr]
      rfl
    · have hlen2 : (node_init h name (some p) node_id ts).1.length
          = h.length + 1 := by
        simp only [node_init]
        rw [add_child_length]
        simp
      obtain ⟨op, hop⟩ :
          ∃ o, ((node_init h name (some p) node_id ts).1)[p]? = some o := by
        rw [List.getElem?_eq_getElem (by omega)]
        exact ⟨_, rfl⟩
      refine ⟨op, hop, ?_⟩
      rw [ir2 p op hop h.length, childSlot_of_get haddr]
      simp [newObj]

/-- Concrete instance of claim3_registration: the one-node heap built by
constructing a single root node. -/
theorem claim3_registration_witness :
    (∀ (c : Nat) (oc : Obj) (p : Nat),
        ((node_init [] "r" none 1 0).1)[c]? = some oc →
        oc.parent = some p →
        ∃ op : Obj, ((node_init [] "r" none 1 0).1)[p]? = some op
          ∧ op.children.count c = 1)
    ∧ (∀ (name : String) (p : Nat) (node_id ts : Int),
        p < (node_init [] "r" none 1 0).1.length →
        (((node_init (node_init [] "r" none 1 0).1 name (some p)
            node_id ts).1)[(node_init [] "r" none 1 0).1.length]?).map
            Obj.parent = some (some p)
        ∧ ∃ op : Obj, ((node_init (node_init [] "r" none 1 0).1 name
            (some p) node_id ts).1)[p]? = some op
          ∧ op.children.count (node_init [] "r" none 1 0).1.length = 1) :=
  claim3_registration (node_init [] "r" none 1 0).1
    (Constructed.init [] "r" none 1 0 Constructed.nil
      (fun p hp => Option.noConfusion hp))

/-! ## Catalogs (Python dicts keyed by id) -/

/-- Lookup in an id-keyed dictionary: first entry with the key (Python
dict lookup; keys are unique in dictionaries built by assignment). -/
def dict_get {β : Type} : List (Int × β) → Int → Option β
  | [], _ => none
  | e :: rest, k => if e.1 = k then some e.2 else dict_get rest k

/-- Key-membership test of Python's in operator on a dict. -/
def dict_member {β : Type} : List (Int × β) → Int → Bool
  | [], _ => false
  | e :: rest, k => e.1 = k || dict_member rest k

/-- Python dict assignment d[k] = v: replace in place when the key is
present, append at the end otherwise (insertion order preserved). -/
def dict_set {β : Type} : List (Int × β) → Int → β → List (Int × β)
  | [], k, v => [(k, v)]
  | e :: rest, k, v =>
    if e.1 = k then (k, v) :: rest else e :: dict_set rest k v

/-- Lookup via a key that may be absent (Python d.get(x) where x itself
can be None): None is a member of no int-keyed catalog. -/
def opt_dict_get {β : Type} (d : List (Int × β)) : Option Int → Option β
  | none => none
  | some k => dict_get d k

/-- Membership via a key that may be absent. -/
def opt_key_mem {β : Type} (d : List (Int × β)) : Option Int → Bool
  | none => false
  | some k => dict_member d k

theorem dict_set_of_not_mem {β : Type} (d : List (Int × β)) (k : Int)
    (v : β) (hk : dict_member d k = false) :
    dict_set d k v = d ++ [(k, v)] := by
  induction d with
  | nil => rfl
  | cons e rest ih =>
    rw [dict_member] at hk
    simp only [Bool.or_eq_false_iff] at hk
    rw [dict_set, if_neg (by simpa using hk.1), ih hk.2]
    rfl

theorem dict_member_append_single {β : Type} (d : List (Int × β))
    (k k' : Int) (v : β) :
    dict_member (d ++ [(k, v)]) k' = (dict_member d k' || decide (k = k')) := by
  induction d with
  | nil => simp [dict_member]
  | cons e rest ih =>
    rw [List.cons_append, dict_member, ih, dict_member]
    rw [Bool.or_assoc]

theorem dict_get_set_self {β : Type} (d : List (Int × β)) (k : Int)
    (v : β) : dict_get (dict_set d k v) k = some v := by
  induction d with
  | nil => simp [dict_set, dict_get]
  | cons e rest ih =>
    by_cases he : e.1 = k
    · rw [dict_set, if_pos he, dict_get, if_pos rfl]
    · rw [dict_set, if_neg he, dict_get, if_neg he, ih]

theorem dict_get_set_ne {β : Type} (d : List (Int × β)) (k k' : Int)
    (v : β) (hne : k ≠ k') :
    dict_get (dict_set d k v) k' = dict_get d k' := by
  induction d with
  | nil => simp [dict_set, dict_get, hne]
  | cons e rest ih =>
    by_cases he : e.1 = k
    · rw [dict_set, if_pos he, dict_get, if_neg hne, dict_get,
        if_neg (by rw [he]; exact hne)]
    · rw [dict_set, if_neg he, dict_get, dict_get, ih]

theorem dict_get_foldl_set_of_not_mem {β γ : Type} (key : γ → Int)
    (f : γ → β) :
    ∀ (data : List γ) (acc : List (Int × β)) (k : Int),
      (∀ e ∈ data, key e ≠ k) →
      dict_get (data.foldl (fun a dd => dict_set a (key dd) (f dd)) acc) k
        = dict_get acc k := by
  intro data
  induction data with
  | nil => intro acc k _; rfl
  | cons e rest ih =>
    intro acc k hk
    rw [List.foldl_cons,
      ih (dict_set acc (key e) (f e)) k
        (fun x hx => hk x (List.mem_cons_of_mem e hx)),
      dict_get_set_ne acc (key e) k (f e) (hk e (List.mem_cons_self e rest))]

theorem dict_get_foldl_set_of_mem {β γ : Type} (key : γ → Int)
    (f : γ → β) :
    ∀ (data : List γ) (acc : List (Int × β)) (d : γ), d ∈ data →
      (data.map key).Nodup →
      dict_get (data.foldl (fun a dd => dict_set a (key dd) (f dd)) acc)
        (key d) = some (f d) := by
  intro data
  induction data with
  | nil => intro acc d hd; exact absurd hd (List.not_mem_nil d)
  | cons e rest ih =>
    intro acc d hd hnd
    rw [List.map_cons, List.nodup_cons] at hnd
    rcases List.mem_cons.mp hd with rfl | hd
    · rw [List.foldl_cons,
        dict_get_foldl_set_of_not_mem key f rest _ (key d)
          (fun x hx hcol => hnd.1 (hcol ▸ List.mem_map_of_mem key hx)),
        dict_get_set_self]
    · rw [List.foldl_cons]
      exact ih (dict_set acc (key e) (f e)) d hd hnd.2

/-! ## Catalog building: the chapters loop and the pages loop -/

/-- A book Node as the chapter and page loops see it (its own parent is
a shelf reference or None). -/
structure BNode where
  name : String
  parent : Option Int
  node_id : Int
  last_edit_timestamp : Int
  deriving DecidableEq

/-- A chapter Node: its parent is the book Node looked up by book_id via
dict.get, hence possibly None. -/
structure CNode where
  name : String
  parent : Option BNode
  node_id : Int
  last_edit_timestamp : Int
  deriving DecidableEq

/-- One entry of the chapters listing as read by the chapters loop. -/
structure ChapterData where
  name : String
  book_id : Int
  node_id : Int
  updated_at : Int
  deriving DecidableEq

/-- The chapter Node constructed for one listing entry by the chapters
catalog loop: Node(name, books.get(book_id), id, ts) — the parent is
looked up with dict.get, so a missing book yields parent None, not an
error. -/
def build_chapter (books : List (Int × BNode)) (d : ChapterData) : CNode :=
  { name := sanitize FORBIDDEN_CHARS d.name,
    parent := dict_get books d.book_id,
    node_id := d.node_id,
    last_edit_timestamp := d.updated_at }

/-- The chapters catalog loop: chapters[chapter.get_id()] = chapter for
each listing entry, in order. -/
def build_chapters (books : List (Int × BNode))
    (data : List ChapterData) : List (Int × CNode) :=
  data.foldl (fun acc d => dict_set acc d.node_id (build_chapter books d)) []

/-- One entry of the pages listing as read by the pages loop;
chapter_id is None when the field is absent. -/
structure PageData where
  name : String
  chapter_id : Option Int
  book_id : Int
  node_id : Int
  updated_at : Int
  deriving DecidableEq

/-- The parent of a page Node: a chapter or (fallback) a book. -/
inductive PageParent where
  | chapterP : CNode → PageParent
  | bookP : BNode → PageParent
  deriving DecidableEq

/-- A page Node (parent possibly None, since Node accepts None). -/
structure PgNode where
  name : String
  parent : Option PageParent
  node_id : Int
  last_edit_timestamp : Int
  deriving DecidableEq

/-- The page Node built in the fallback branch of the pages loop: the
parent is the book found by indexing books[book_id]. -/
def fallback_page (b : BNode) (d : PageData) : PgNode :=
  { name := sanitize FORBIDDEN_CHARS d.name,
    parent := some (PageParent.bookP b),
    node_id := d.node_id, last_edit_timestamp := d.updated_at }

/-- The page Node built in the in-chapter branch of the pages loop: the
parent is chapters.get(chapter_id). -/
def chapter_page (chaptersC : List (Int × CNode)) (d : PageData) : PgNode :=
  { name := sanitize FORBIDDEN_CHARS d.name,
    parent := (opt_dict_get chaptersC d.chapter_id).map PageParent.chapterP,
    node_id := d.node_id, last_edit_timestamp := d.updated_at }

/-- One iteration of the pages catalog loop over the state
(pages, pages_not_in_chapter): when the page's chapter_id is not a key
of the chapters catalog, the parent is books[book_id] — a plain
indexing that fails on a missing book — and the page is recorded in
both pages and pages_not_in_chapter; otherwise the parent is the
chapter and the page is recorded in pages only. -/
def build_pages_step (chaptersC : List (Int × CNode))
    (booksC : List (Int × BNode))
    (st : List (Int × PgNode) × List (Int × PgNode)) (d : PageData) :
    Except String (List (Int × PgNode) × List (Int × PgNode)) :=
  if opt_key_mem chaptersC d.chapter_id = false then
    match dict_get booksC d.book_id with
    | none => Except.error "KeyError: book_id"
    | some b =>
      Except.ok (dict_set st.1 d.node_id (fallback_page b d),
        dict_set st.2 d.node_id (fallback_page b d))
  else
    Except.ok (dict_set st.1 d.node_id (chapter_page chaptersC d), st.2)

/-- The pages catalog loop over the whole listing, starting from the
empty pages and pages_not_in_chapter catalogs. -/
def build_pages (chaptersC : List (Int × CNode))
    (booksC : List (Int × BNode)) (data : List PageData) :
    Except String (List (Int × PgNode) × List (Int × PgNode)) :=
  data.foldlM (build_pages_step chaptersC booksC) ([], [])

theorem build_pages_nic_keys (chaptersC : List (Int × CNode))
    (booksC : List (Int × BNode)) :
    ∀ (data : List PageData)
      (st r : List (Int × PgNode) × List (Int × PgNode)),
      List.foldlM (build_pages_step chaptersC booksC) st data
        = Except.ok r →
      (data.map PageData.node_id).Nodup →
      (∀ e ∈ data, dict_member st.2 e.node_id = false) →
      r.2.map Prod.fst
        = st.2.map Prod.fst
          ++ (data.filter
              (fun d => !(opt_key_mem chaptersC d.chapter_id))).map
              PageData.node_id := by
  intro data
  induction data with
  | nil =>
    intro st r hok _ _
    simp only [List.foldlM_nil, pure, Except.pure, Except.ok.injEq] at hok
    subst hok
    simp
  | cons d rest ih =>
    intro st r hok hnd hfresh
    rw [List.foldlM_cons] at hok
    rw [List.map_cons, List.nodup_cons] at hnd
    cases hstep : build_pages_step chaptersC booksC st d with
    | error e =>
      rw [hstep] at hok
      exact absurd hok (by simp [Bind.bind, Except.bind])
    | ok st1 =>
      rw [hstep] at hok
      rw [show ((Except.ok st1 : Except String _) >>= fun s =>
            List.foldlM (build_pages_step chaptersC booksC) s rest)
          = List.foldlM (build_pages_step chaptersC booksC) st1 rest
          from rfl] at hok
      by_cases hmem : opt_key_mem chaptersC d.chapter_id = false
      · rw [build_pages_step, if_pos hmem] at hstep
        cases hbook : dict_get booksC d.book_id with
        | none =>
          rw [hbook] at hstep
          exact absurd hstep (by simp)
        | some b =>
          rw [hbook] at hstep
          simp only [Except.ok.injEq] at hstep
          subst hstep
          have hset : dict_set st.2 d.node_id (fallback_page b d)
              = st.2 ++ [(d.node_id, fallback_page b d)] :=
            dict_set_of_not_mem _ _ _
              (hfresh d (List.mem_cons_self d rest))
          have hfresh2 : ∀ e ∈ rest,
              dict_member (dict_set st.2 d.node_id (fallback_page b d))
                e.node_id = false := by
            intro e he
            rw [hset, dict_member_append_single,
              hfresh e (List.mem_cons_of_mem d he)]
            simp only [Bool.false_or, decide_eq_false_iff_not]
            intro hcol
            exact hnd.1 (hcol ▸ List.mem_map_of_mem PageData.node_id he)
          have hr := ih _ r hok hnd.2 hfresh2
          rw [hr]
          simp only []
          rw [hset, List.filter_cons, if_pos (by simp [hmem])]
          simp
      · rw [build_pages_step, if_neg hmem] at hstep
        simp only [Except.ok.injEq] at hstep
        subst hstep
        have hopt : opt_key_mem chaptersC d.chapter_id = true := by
          revert hmem
          cases opt_key_mem chaptersC d.chapter_id <;> simp
        have hr := ih _ r hok hnd.2 (by
          intro e he
          exact hfresh e (List.mem_cons_of_mem d he))
        rw [hr]
        simp only []
        rw [List.filter_cons, if_neg (by simp [hopt])]

/-! ## Export driver level loop (which passes run, in order) -/

/-- The hierarchy levels the driver may export at (LEVELS, validated). -/
inductive Level where
  | pages
  | chapters
  | books
  deriving DecidableEq

/-- The pass the level loop runs for one selected level: the export
level name and the ids of the catalog values handed to export_doc. -/
def level_pass (pagesC : List (Int × PgNode))
    (chaptersC : List (Int × CNode)) (booksC : List (Int × BNode)) :
    Level → String × List Int
  | .pages => ("pages", pagesC.map Prod.fst)
  | .chapters => ("chapters", chaptersC.map Prod.fst)
  | .books => ("books", booksC.map Prod.fst)

/-- The level loop of exporter.py with its EXPORT_PAGES_NOT_IN_CHAPTER
flag: one pass per selected level in order; selecting chapters sets the
flag; after the loop, a set flag adds one extra pass at pages
granularity over the pages_not_in_chapter catalog. -/
def export_passes_go (pagesC : List (Int × PgNode))
    (chaptersC : List (Int × CNode)) (booksC : List (Int × BNode))
    (pagesNIC : List (Int × PgNode)) :
    List Level → Bool → List (String × List Int)
  | [], flag =>
    if flag then [("pages", pagesNIC.map Prod.fst)] else []
  | lvl :: rest, flag =>
    level_pass pagesC chaptersC booksC lvl
      :: export_passes_go pagesC chaptersC booksC pagesNIC rest
          (if lvl = Level.chapters then true else flag)

/-- All export passes the driver runs for the selected levels (the flag
starts out False). -/
def export_passes (pagesC : List (Int × PgNode))
    (chaptersC : List (Int × CNode)) (booksC : List (Int × BNode))
    (pagesNIC : List (Int × PgNode)) (levels : List Level) :
    List (String × List Int) :=
  export_passes_go pagesC chaptersC booksC pagesNIC levels false

theorem export_passes_go_eq (pagesC : List (Int × PgNode))
    (chaptersC : List (Int × CNode)) (booksC : List (Int × BNode))
    (pagesNIC : List (Int × PgNode)) :
    ∀ (levels : List Level) (flag : Bool),
      export_passes_go pagesC chaptersC booksC pagesNIC levels flag
        = levels.map (level_pass pagesC chaptersC booksC)
          ++ (if flag = true ∨ Level.chapters ∈ levels
              then [("pages", pagesNIC.map Prod.fst)] else []) := by
  intro levels
  induction levels with
  | nil =>
    intro flag
    cases flag <;> simp [export_passes_go]
  | cons lvl rest ih =>
    intro flag
    rw [export_passes_go, ih]
    by_cases hl : lvl = Level.chapters
    · subst hl
      simp [List.mem_cons]
    · simp [List.mem_cons, hl, Ne.symm hl]

/-- C7: when the chapters level is among the selected export levels, the
driver runs — after the per-level passes, which appear in selection
order — one extra pass at pages granularity over exactly the pages
whose chapter_id did not resolve to a catalogued chapter (the ones that
were attached directly to their book); when chapters is not selected,
no extra pass occurs. -/
theorem claim7_pages_not_in_chapter_pass (chaptersC : List (Int × CNode))
    (booksC : List (Int × BNode)) (data : List PageData)
    (r : List (Int × PgNode) × List (Int × PgNode)) (levels : List Level)
    (hok : build_pages chaptersC booksC data = Except.ok r)
    (hnd : (data.map PageData.node_id).Nodup) :
    (Level.chapters ∈ levels →
        export_passes r.1 chaptersC booksC r.2 levels
          = levels.map (level_pass r.1 chaptersC booksC)
            ++ [("pages", r.2.map Prod.fst)]
        ∧ r.2.map Prod.fst
            = (data.filter
                (fun d => !(opt_key_mem chaptersC d.chapter_id))).map
                PageData.node_id)
    ∧ (Level.chapters ∉ levels →
        export_passes r.1 chaptersC booksC r.2 levels
          = levels.map (level_pass r.1 chaptersC booksC)) := by
  have hkeys := build_pages_nic_keys chaptersC booksC data ([], []) r hok hnd
    (by intro e _; rfl)
  constructor
  · intro hmem
    refine ⟨?_, ?_⟩
    · rw [export_passes, export_passes_go_eq, if_pos (Or.inr hmem)]
    · simpa using hkeys
  · intro hmem
    rw [export_passes, export_passes_go_eq, if_neg (by simp [hmem])]
    simp

/-- Example fixtures for the second-pass scenario: one book, one chapter
on it, one page inside the chapter and one page with no chapter. -/
def exBook : BNode :=
  { name := "bk", parent := none, node_id := 10, last_edit_timestamp := 0 }

/-- The catalogued chapter of the fixture. -/
def exChapter : CNode :=
  { name := "ch", parent := some exBook, node_id := 7,
    last_edit_timestamp := 0 }

/-- The pages listing of the fixture: page 1 in chapter 7, page 2 with
no chapter but valid book 10. -/
def exPageData : List PageData :=
  [{ name := "p1", chapter_id := some 7, book_id := 10, node_id := 1,
     updated_at := 0 },
   { name := "p2", chapter_id := none, book_id := 10, node_id := 2,
     updated_at := 0 }]

/-- The catalogs the pages loop builds from the fixture. -/
def exResult : List (Int × PgNode) × List (Int × PgNode) :=
  ([(1, chapter_page [(7, exChapter)]
        { name := "p1", chapter_id := some 7, book_id := 10, node_id := 1,
          updated_at := 0 }),
    (2, fallback_page exBook
        { name := "p2", chapter_id := none, book_id := 10, node_id := 2,
          updated_at := 0 })],
   [(2, fallback_page exBook
        { name := "p2", chapter_id := none, book_id := 10, node_id := 2,
          updated_at := 0 })])

/-- Concrete instance of claim7_pages_not_in_chapter_pass on the fixture
catalogs with levels = [chapters]. -/
theorem claim7_pages_not_in_chapter_pass_witness :
    (Level.chapters ∈ [Level.chapters] →
        export_passes exResult.1 [(7, exChapter)] [(10, exBook)] exResult.2
            [Level.chapters]
          = [Level.chapters].map (level_pass exResult.1 [(7, exChapter)]
              [(10, exBook)])
            ++ [("pages", exResult.2.map Prod.fst)]
        ∧ exResult.2.map Prod.fst
            = (exPageData.filter
                (fun d => !(opt_key_mem [(7, exChapter)] d.chapter_id))).map
                PageData.node_id)
    ∧ (Level.chapters ∉ [Level.chapters] →
        export_passes exResult.1 [(7, exChapter)] [(10, exBook)] exResult.2
            [Level.chapters]
          = [Level.chapters].map (level_pass exResult.1 [(7, exChapter)]
              [(10, exBook)])) :=
  claim7_pages_not_in_chapter_pass [(7, exChapter)] [(10, exBook)]
    exPageData exResult [Level.chapters] rfl (by decide)

/-- C8 counterexample: a chapter whose book_id (5) resolves to no book in
the books catalog is constructed and stored with parent None — the
chapters loop uses dict.get, raising nothing; no lookup failure occurs,
contrary to the claim. -/
theorem claim8_counterexample_silent_parentless :
    (dict_get (build_chapters []
        [{ name := "c", book_id := 5, node_id := 1, updated_at := 0 }])
      1).map CNode.parent = some none :=
  rfl

/-- C8 (amended): the chapters catalog loop looks the referenced book up
with dict.get, so a chapter whose book_id resolves to no catalogued
book is constructed and stored with parent None — silently parentless,
with no lookup failure — unlike the pages loop, whose book fallback
indexes the dictionary and does fail on a missing book. -/
theorem claim8_chapter_missing_book (books : List (Int × BNode))
    (data : List ChapterData) (d : ChapterData)
    (hmiss : dict_get books d.book_id = none)
    (hd : d ∈ data) (hnd : (data.map ChapterData.node_id).Nodup) :
    (build_chapter books d).parent = none
    ∧ dict_get (build_chapters books data) d.node_id
        = some (build_chapter books d) := by
  constructor
  · simp [build_chapter, hmiss]
  · unfold build_chapters
    exact dict_get_foldl_set_of_mem (fun dd => dd.node_id)
      (fun dd => build_chapter books dd) data [] d hd hnd

/-- Concrete instance of claim8_chapter_missing_book: an empty books
catalog and a single chapter entry referencing book 5. -/
theorem claim8_chapter_missing_book_witness :
    (build_chapter []
        { name := "c", book_id := 5, node_id := 1, updated_at := 0 }).parent
      = none
    ∧ dict_get (build_chapters []
        [{ name := "c", book_id := 5, node_id := 1, updated_at := 0 }])
        ({ name := "c", book_id := 5, node_id := 1,
           updated_at := 0 } : ChapterData).node_id
      = some (build_chapter []
          { name := "c", book_id := 5, node_id := 1, updated_at := 0 }) :=
  claim8_chapter_missing_book []
    [{ name := "c", book_id := 5, node_id := 1, updated_at := 0 }]
    { name := "c", book_id := 5, node_id := 1, updated_at := 0 }
    rfl (List.mem_singleton.mpr rfl) (by decide)

/-! ## HTTP headers for external attachment downloads -/

/-- Splitting a character list at the first occurrence of a separator
(Python's str.split(sep, 1)); none when the separator is absent. -/
def split_first (sep : Char) : List Char → Option (List Char × List Char)
  | [] => none
  | c :: rest =>
    if c = sep then some ([], rest)
    else (split_first sep rest).map (fun p => (c :: p.1, p.2))

/-- Parsing of one --additional-headers argument: header.split(':', 1);
fewer than two parts (no colon at all) raises ValueError. -/
def parse_header (s : String) : Except String (String × String) :=
  match split_first ':' s.toList with
  | none => Except.error "Improper HTTP header specification"
  | some p => Except.ok (String.mk p.1, String.mk p.2)

/-- Python dict assignment on the string-keyed header dicts: replace in
place when the name is present, append otherwise. -/
def headers_update (hs : List (String × String)) (k v : String) :
    List (String × String) :=
  if hs.any (fun e => decide (e.1 = k)) then
    hs.map (fun e => if e.1 = k then (k, v) else e)
  else hs ++ [(k, v)]

/-- HEADERS_NO_TOKEN as initialised in exporter.py: content type and
user agent only — no Authorization entry. -/
def HEADERS_NO_TOKEN_base (user_agent : String) : List (String × String) :=
  [("Content-Type", "application/json; charset=utf-8"),
   ("User-Agent", user_agent)]

/-- The loop over args.additional_headers as it affects HEADERS_NO_TOKEN:
each argument is split at its first colon (ValueError when there is
none) and the name/value pair is assigned into the dict. -/
def apply_additional_headers (base : List (String × String))
    (additional : List String) :
    Except String (List (String × String)) :=
  additional.foldlM (fun hs s =>
    (parse_header s).map (fun kv => headers_update hs kv.1 kv.2)) base

/-- The header set export_attachments uses to download an attachment:
some HEADERS_NO_TOKEN exactly when the content parses as a URL with a
scheme and external-attachment export is enabled; none when no external
request happens at all. -/
def attachment_request_headers (headers_no_token : List (String × String))
    (content_has_scheme dont_export_external : Bool) :
    Option (List (String × String)) :=
  if content_has_scheme then
    if dont_export_external then none
    else some headers_no_token
  else none

theorem headers_update_no_key (hs : List (String × String)) (k v a : String)
    (hhs : ∀ e ∈ hs, e.1 ≠ a) (hk : k ≠ a) :
    ∀ e ∈ headers_update hs k v, e.1 ≠ a := by
  intro e he
  unfold headers_update at he
  split at he
  · rcases List.mem_map.mp he with ⟨e0, he0, rfl⟩
    by_cases h0 : e0.1 = k
    · rw [if_pos h0]
      exact hk
    · rw [if_neg h0]
      exact hhs e0 he0
  · rcases List.mem_append.mp he with he | he
    · exact hhs e he
    · rcases List.mem_singleton.mp he with rfl
      exact hk

theorem apply_additional_no_auth :
    ∀ (additional : List String) (base hs : List (String × String)),
      apply_additional_headers base additional = Except.ok hs →
      (∀ e ∈ base, e.1 ≠ "Authorization") →
      (∀ s ∈ additional, ∀ kv : String × String,
          parse_header s = Except.ok kv → kv.1 ≠ "Authorization") →
      ∀ e ∈ hs, e.1 ≠ "Authorization" := by
  intro additional
  induction additional with
  | nil =>
    intro base hs hok hbase _
    simp only [apply_additional_headers, List.foldlM_nil, pure, Except.pure,
      Except.ok.injEq] at hok
    subst hok
    exact hbase
  | cons s rest ih =>
    intro base hs hok hbase hadd
    rw [apply_additional_headers, List.foldlM_cons] at hok
    cases hp : parse_header s with
    | error e0 =>
      rw [hp] at hok
      exact absurd hok (by simp [Except.map, Bind.bind, Except.bind])
    | ok kv =>
      rw [hp] at hok
      simp only [Except.map, Bind.bind, Except.bind] at hok
      refine ih (headers_update base kv.1 kv.2) hs hok ?_ ?_
      · exact headers_update_no_key base kv.1 kv.2 _ hbase
          (hadd s (List.mem_cons_self s rest) kv hp)
      · intro s2 hs2 kv2 hp2
        exact hadd s2 (List.mem_cons_of_mem s hs2) kv2 hp2

/-- C9: when no configured additional header is named Authorization, the
token-free header dict — after additional headers are copied into it —
contains no Authorization entry, and the external-URL attachment
download, when it happens, uses exactly that header set (so the API
token never flows to the third-party host); no external request is made
for embedded content. -/
theorem claim9_external_download_no_token (user_agent : String)
    (additional : List String) (hs : List (String × String))
    (hok : apply_additional_headers (HEADERS_NO_TOKEN_base user_agent)
        additional = Except.ok hs)
    (hname : ∀ s ∈ additional, ∀ kv : String × String,
        parse_header s = Except.ok kv → kv.1 ≠ "Authorization") :
    (∀ e ∈ hs, e.1 ≠ "Authorization")
    ∧ attachment_request_headers hs true false = some hs
    ∧ (∀ b : Bool, attachment_request_headers hs false b = none) := by
  refine ⟨?_, rfl, fun b => rfl⟩
  refine apply_additional_no_auth additional _ hs hok ?_ hname
  intro e he
  simp only [HEADERS_NO_TOKEN_base, List.mem_cons, List.mem_singleton,
    List.not_mem_nil, or_false] at he
  rcases he with rfl | rfl
  · decide
  · show "User-Agent" ≠ "Authorization"
    decide

/-- Concrete instance of claim9_external_download_no_token: the default
user agent and one additional header X-Custom: 1. -/
theorem claim9_external_download_no_token_witness :
    (∀ e ∈ HEADERS_NO_TOKEN_base "BookStack exporter"
          ++ [("X-Custom", " 1")],
        e.1 ≠ "Authorization")
    ∧ attachment_request_headers
        (HEADERS_NO_TOKEN_base "BookStack exporter" ++ [("X-Custom", " 1")])
        true false
      = some (HEADERS_NO_TOKEN_base "BookStack exporter"
          ++ [("X-Custom", " 1")])
    ∧ (∀ b : Bool, attachment_request_headers
        (HEADERS_NO_TOKEN_base "BookStack exporter" ++ [("X-Custom", " 1")])
        false b = none) :=
  claim9_external_download_no_token "BookStack exporter" ["X-Custom: 1"]
    (HEADERS_NO_TOKEN_base "BookStack exporter" ++ [("X-Custom", " 1")])
    rfl
    (by
      intro s hss kv hkv
      rw [List.mem_singleton] at hss
      subst hss
      rw [show parse_header "X-Custom: 1"
          = Except.ok ("X-Custom", " 1") from rfl,
        Except.ok.injEq] at hkv
      subst hkv
      decide)

/-! ## Export driver writes (export_doc with make_dir)

Paths are modelled as segment lists — the segment form of the string
FS_PATH joined with doc.get_path(), whose string form is verified
above. -/

/-- A filesystem path as a list of segments. -/
abbrev SegPath := List String

/-- The modelled content of one file: modification instant and bytes. -/
structure FileData where
  mtime : Int
  content : List Nat

/-- The modelled filesystem: the directories that exist and the files
that exist with their data. -/
structure FS where
  dirs : List SegPath
  files : List (SegPath × FileData)

/-- Lookup of the file stored at a path. -/
def fs_lookup (files : List (SegPath × FileData)) (p : SegPath) :
    Option FileData :=
  (files.find? (fun e => decide (e.1 = p))).map Prod.snd

/-- os.path-style existence: a directory or a file at the path. -/
def path_exists (fs : FS) (p : SegPath) : Bool :=
  fs.dirs.any (fun q => decide (q = p)) || (fs_lookup fs.files p).isSome

/-- All prefixes of a path, shortest first, the path itself included:
what mkdir(parents=True) creates when nothing exists at the path. -/
def ancestor_dirs (p : SegPath) : List SegPath :=
  (List.range p.length).map (fun i => p.take (i + 1))

/-- make_dir from exporter.py: a no-op when something exists at the path
(file or directory), otherwise a recursive directory creation
(exist_ok, so already-present intermediate entries are harmless). -/
def make_dir (fs : FS) (p : SegPath) : FS :=
  if path_exists fs p then fs
  else { fs with dirs := fs.dirs ++ ancestor_dirs p }

/-- check_if_update_needed over the modelled filesystem: the force flag
first, then file existence, then the recursive changed_since count
against the file's modification instant. -/
def check_update_files (skip_timestamps : Bool)
    (files : List (SegPath × FileData)) (p : SegPath)
    (document : Node) : Bool :=
  if skip_timestamps then true
  else
    match fs_lookup files p with
    | none => true
    | some fd => decide (0 < document.changed_since fd.mtime)

/-- Overwriting (or creating) the file at a path. -/
def files_set : List (SegPath × FileData) → SegPath → FileData →
    List (SegPath × FileData)
  | [], k, v => [(k, v)]
  | e :: rest, k, v =>
    if e.1 = k then (k, v) :: rest else e :: files_set rest k v

/-- A document as export_doc consumes it: its directory path (segment
form of FS_PATH joined with get_path), its sanitized name, its id, and
its node together with its children for the staleness check. -/
structure Doc where
  path : SegPath
  name : String
  node_id : Int
  tree : Node

/-- The per-format inner loop of export_doc for one document: compute
the target file path name.extension under the document's directory,
consult the staleness decider, and when stale fetch the rendered bytes
(fetch stands for api_get_bytes at level/id/export/format) and
overwrite the file with write-time now. -/
def export_doc_formats (skip : Bool)
    (fetch : String → Int → String → List Nat)
    (formats : List (String × String)) (level : String) (now : Int)
    (doc : Doc) (fs0 : FS) : FS :=
  formats.foldl (fun fsa fmt =>
    if check_update_files skip fsa.files
        (doc.path ++ [doc.name ++ "." ++ fmt.2]) doc.tree then
      let newFiles := files_set fsa.files
        (doc.path ++ [doc.name ++ "." ++ fmt.2])
        { mtime := now, content := fetch level doc.node_id fmt.1 }
      { fsa with files := newFiles }
    else fsa) fs0

/-- export_doc from exporter.py: for every document, make_dir on its
directory path first, then the per-format staleness checks and writes. -/
def export_doc (skip : Bool) (fetch : String → Int → String → List Nat)
    (formats : List (String × String)) (level : String) (now : Int)
    (docs : List Doc) (fs : FS) : FS :=
  docs.foldl (fun fs1 doc =>
    export_doc_formats skip fetch formats level now doc
      (make_dir fs1 doc.path)) fs

theorem make_dir_files (fs : FS) (p : SegPath) :
    (make_dir fs p).files = fs.files := by
  unfold make_dir
  split
  · rfl
  · rfl

theorem path_exists_make_dir_self (fs : FS) (p : SegPath) (hp : p ≠ []) :
    path_exists (make_dir fs p) p = true := by
  unfold make_dir
  split
  · assumption
  · have hmem : p ∈ ancestor_dirs p := by
      unfold ancestor_dirs
      have hlen : 0 < p.length := List.length_pos.mpr hp
      refine List.mem_map.mpr ⟨p.length - 1,
        List.mem_range.mpr (by omega), ?_⟩
      have heq : p.length - 1 + 1 = p.length := by omega
      rw [heq, List.take_length]
    unfold path_exists
    rw [Bool.or_eq_true]
    left
    rw [List.any_eq_true]
    exact ⟨p, List.mem_append_right _ hmem, by simp⟩

theorem path_exists_make_dir_mono (fs : FS) (p q : SegPath)
    (h : path_exists fs q = true) :
    path_exists (make_dir fs p) q = true := by
  unfold make_dir
  split
  · exact h
  · unfold path_exists at h ⊢
    rw [Bool.or_eq_true] at h ⊢
    rcases h with h | h
    · left
      rw [List.any_eq_true] at h ⊢
      rcases h with ⟨x, hx, hxe⟩
      exact ⟨x, List.mem_append_left _ hx, hxe⟩
    · right
      exact h

theorem export_doc_formats_fresh (skip : Bool)
    (fetch : String → Int → String → List Nat) (level : String)
    (now : Int) (doc : Doc) :
    ∀ (formats : List (String × String)) (fs0 : FS),
      (∀ fmt ∈ formats, check_update_files skip fs0.files
        (doc.path ++ [doc.name ++ "." ++ fmt.2]) doc.tree = false) →
      export_doc_formats skip fetch formats level now doc fs0 = fs0 := by
  intro formats
  induction formats with
  | nil => intro fs0 _; rfl
  | cons fmt rest ih =>
    intro fs0 hf
    rw [export_doc_formats, List.foldl_cons]
    rw [hf fmt (List.mem_cons_self fmt rest)]
    rw [if_neg (by simp)]
    exact ih fs0 (fun f hf2 => hf f (List.mem_cons_of_mem fmt hf2))

theorem export_doc_fresh_aux (fetch : String → Int → String → List Nat)
    (formats : List (String × String)) (level : String) (now : Int)
    (fsInit : FS) :
    ∀ (docs : List Doc) (fs1 : FS), fs1.files = fsInit.files →
      (∀ doc ∈ docs, doc.path ≠ []) →
      (∀ doc ∈ docs, ∀ fmt ∈ formats,
        check_update_files false fsInit.files
          (doc.path ++ [doc.name ++ "." ++ fmt.2]) doc.tree = false) →
      (export_doc false fetch formats level now docs fs1).files
          = fsInit.files
      ∧ (∀ q : SegPath, path_exists fs1 q = true →
          path_exists (export_doc false fetch formats level now docs fs1) q
            = true)
      ∧ (∀ doc ∈ docs,
          path_exists (export_doc false fetch formats level now docs fs1)
            doc.path = true) := by
  intro docs
  induction docs with
  | nil =>
    intro fs1 hfiles _ _
    exact ⟨hfiles, fun q h => h,
      fun doc hd => absurd hd (List.not_mem_nil doc)⟩
  | cons doc rest ih =>
    intro fs1 hfiles hne hfresh
    have hfs2 : (make_dir fs1 doc.path).files = fs1.files :=
      make_dir_files fs1 doc.path
    have hform : export_doc_formats false fetch formats level now doc
        (make_dir fs1 doc.path) = make_dir fs1 doc.path := by
      apply export_doc_formats_fresh
      intro fmt hfmt
      rw [hfs2, hfiles]
      exact hfresh doc (List.mem_cons_self doc rest) fmt hfmt
    have hstep : export_doc false fetch formats level now (doc :: rest) fs1
        = export_doc false fetch formats level now rest
            (make_dir fs1 doc.path) := by
      simp only [export_doc, List.foldl_cons]
      rw [hform]
    obtain ⟨ihf, ihmono, ihdocs⟩ := ih (make_dir fs1 doc.path)
      (by rw [hfs2, hfiles])
      (fun d hd => hne d (List.mem_cons_of_mem doc hd))
      (fun d hd => hfresh d (List.mem_cons_of_mem doc hd))
    refine ⟨?_, ?_, ?_⟩
    · rw [hstep]
      exact ihf
    · intro q hq
      rw [hstep]
      exact ihmono q (path_exists_make_dir_mono fs1 doc.path q hq)
    · intro d hd
      rcases List.mem_cons.mp hd with rfl | hd
      · rw [hstep]
        exact ihmono d.path (path_exists_make_dir_self fs1 d.path
          (hne d (List.mem_cons_self d rest)))
      · rw [hstep]
        exact ihdocs d hd

/-- C10: for every exported document, export_doc runs make_dir on the
document's directory path before any staleness check — so even when
every requested format's target file is already fresh (no force flag),
the directory path of every document exists afterwards while the files
are left entirely unchanged (no fetch result is written). -/
theorem claim10_export_doc_dirs (fetch : String → Int → String → List Nat)
    (formats : List (String × String)) (level : String) (now : Int)
    (fs : FS) (docs : List Doc)
    (hne : ∀ doc ∈ docs, doc.path ≠ [])
    (hfresh : ∀ doc ∈ docs, ∀ fmt ∈ formats,
      check_update_files false fs.files
        (doc.path ++ [doc.name ++ "." ++ fmt.2]) doc.tree = false) :
    (export_doc false fetch formats level now docs fs).files = fs.files
    ∧ ∀ doc ∈ docs,
        path_exists (export_doc false fetch formats level now docs fs)
          doc.path = true := by
  obtain ⟨h1, _, h3⟩ := export_doc_fresh_aux fetch formats level now fs docs
    fs rfl hne hfresh
  exact ⟨h1, h3⟩

/-- Fixture document for the frame-effect scenario: one page whose node
was last edited at time 0, with no children. -/
def exDoc : Doc :=
  { path := ["10"], name := "pg", node_id := 1000,
    tree := Node.mk "pg" 1000 0 [] }

/-- Fixture filesystem: no directory yet, and the markdown target file
of the fixture document already present with modification time 5. -/
def exFS : FS :=
  { dirs := [], files := [(["10", "pg.md"], { mtime := 5, content := [] })] }

/-- Concrete instance of claim10_export_doc_dirs: the fixture document
against the fixture filesystem — the target file is fresh, nothing is
written, and the document's directory exists afterwards. -/
theorem claim10_export_doc_dirs_witness :
    (export_doc false (fun _ _ _ => []) [("markdown", "md")] "pages" 9
        [exDoc] exFS).files = exFS.files
    ∧ ∀ doc ∈ [exDoc],
        path_exists (export_doc false (fun _ _ _ => [])
          [("markdown", "md")] "pages" 9 [exDoc] exFS) doc.path = true :=
  claim10_export_doc_dirs (fun _ _ _ => []) [("markdown", "md")] "pages" 9
    exFS [exDoc]
    (by
      intro doc hd
      rw [List.mem_singleton] at hd
      subst hd
      rw [show exDoc.path = ["10"] from rfl]
      simp)
    (by
      intro doc hd fmt hf
      rw [List.mem_singleton] at hd
      rw [List.mem_singleton] at hf
      subst hd
      subst hf
      rw [show (exDoc.path ++ [exDoc.name ++ "." ++ ("markdown", "md").2])
          = (["10", "pg.md"] : SegPath) from rfl]
      rw [check_update_files]
      rw [show fs_lookup exFS.files ["10", "pg.md"]
          = some { mtime := 5, content := [] } from rfl]
      show decide (0 < exDoc.tree.changed_since 5) = false
      rw [show exDoc.tree.changed_since 5 = 0 from by
        rw [show exDoc.tree = Node.mk "pg" 1000 0 [] from rfl]
        rw [Node.changed_since, changedSinceList]
        norm_num]
      simp)

end BookStackExporter
